import Mathlib

noncomputable section

/-
Verification of the geometric-primitives layer of fcl:
  src/trunk/fcl/include/fcl/transform.h   (Quaternion3f, Transform3f)
  src/include/fcl/math/geometry.h         (normalize, generateCoordinateSystem,
                                           eigen, relativeTransform)
Scalars are modelled by the reals; the floating-point type FCL_REAL of the
source is a real-number parameter, so every "within floating tolerance"
contract is settled exactly.
-/

/-- A 3-vector of scalars, modelling Vec3f / Vector3 of the source. -/
@[ext]
structure Vec3 where
  x : ℝ
  y : ℝ
  z : ℝ

def Vec3.zero : Vec3 := ⟨0, 0, 0⟩

def Vec3.add (a b : Vec3) : Vec3 := ⟨a.x + b.x, a.y + b.y, a.z + b.z⟩

def Vec3.sub (a b : Vec3) : Vec3 := ⟨a.x - b.x, a.y - b.y, a.z - b.z⟩

def Vec3.neg (a : Vec3) : Vec3 := ⟨-a.x, -a.y, -a.z⟩

/-- Division of a vector by a scalar, modelling `v /= s`. -/
def Vec3.divScalar (a : Vec3) (s : ℝ) : Vec3 := ⟨a.x / s, a.y / s, a.z / s⟩

def Vec3.dot (a b : Vec3) : ℝ := a.x * b.x + a.y * b.y + a.z * b.z

def Vec3.cross (a b : Vec3) : Vec3 :=
  ⟨a.y * b.z - a.z * b.y, a.z * b.x - a.x * b.z, a.x * b.y - a.y * b.x⟩

/-- Squared Euclidean norm, modelling `squaredNorm()`. -/
def Vec3.squaredNorm (a : Vec3) : ℝ := a.x * a.x + a.y * a.y + a.z * a.z

/-- A 3 by 3 matrix of scalars, modelling Matrix3f / Matrix3 of the source,
with entry mij in row i, column j. -/
@[ext]
structure Mat3 where
  m00 : ℝ
  m01 : ℝ
  m02 : ℝ
  m10 : ℝ
  m11 : ℝ
  m12 : ℝ
  m20 : ℝ
  m21 : ℝ
  m22 : ℝ

def Mat3.zero : Mat3 := ⟨0, 0, 0, 0, 0, 0, 0, 0, 0⟩

/-- The identity matrix, modelling `Matrix3f::setIdentity`. -/
def Mat3.one : Mat3 := ⟨1, 0, 0, 0, 1, 0, 0, 0, 1⟩

def Mat3.transpose (m : Mat3) : Mat3 :=
  ⟨m.m00, m.m10, m.m20, m.m01, m.m11, m.m21, m.m02, m.m12, m.m22⟩

def Mat3.mul (a b : Mat3) : Mat3 :=
  ⟨a.m00 * b.m00 + a.m01 * b.m10 + a.m02 * b.m20,
   a.m00 * b.m01 + a.m01 * b.m11 + a.m02 * b.m21,
   a.m00 * b.m02 + a.m01 * b.m12 + a.m02 * b.m22,
   a.m10 * b.m00 + a.m11 * b.m10 + a.m12 * b.m20,
   a.m10 * b.m01 + a.m11 * b.m11 + a.m12 * b.m21,
   a.m10 * b.m02 + a.m11 * b.m12 + a.m12 * b.m22,
   a.m20 * b.m00 + a.m21 * b.m10 + a.m22 * b.m20,
   a.m20 * b.m01 + a.m21 * b.m11 + a.m22 * b.m21,
   a.m20 * b.m02 + a.m21 * b.m12 + a.m22 * b.m22⟩

def Mat3.mulVec (m : Mat3) (v : Vec3) : Vec3 :=
  ⟨m.m00 * v.x + m.m01 * v.y + m.m02 * v.z,
   m.m10 * v.x + m.m11 * v.y + m.m12 * v.z,
   m.m20 * v.x + m.m21 * v.y + m.m22 * v.z⟩

def Mat3.det (m : Mat3) : ℝ :=
  m.m00 * (m.m11 * m.m22 - m.m12 * m.m21)
  - m.m01 * (m.m10 * m.m22 - m.m12 * m.m20)
  + m.m02 * (m.m10 * m.m21 - m.m11 * m.m20)

/-- A rotation matrix: orthogonal with determinant one. This is the
orthonormal-rotation caller contract of the spec for matrix arguments. -/
def Mat3.IsRotation (m : Mat3) : Prop :=
  m.mul m.transpose = Mat3.one ∧ m.transpose.mul m = Mat3.one ∧ m.det = 1

/-- A quaternion with components (w, x, y, z) = (data[0], data[1], data[2],
data[3]), modelling Quaternion3f of the source. -/
@[ext]
structure Quat where
  w : ℝ
  x : ℝ
  y : ℝ
  z : ℝ

/-- The default quaternion is the identity rotation (1, 0, 0, 0). -/
def Quat.ident : Quat := ⟨1, 0, 0, 0⟩

/-- Exact identity test of Quaternion3f::isIdentity. -/
def Quat.isIdentity (q : Quat) : Prop :=
  q.w = 1 ∧ q.x = 0 ∧ q.y = 0 ∧ q.z = 0

/-- The unit-norm invariant required for a quaternion to denote a rotation. -/
def Quat.unit (q : Quat) : Prop :=
  q.w ^ 2 + q.x ^ 2 + q.y ^ 2 + q.z ^ 2 = 1

/-- Modelled from the spec: the Hamilton product of Quaternion3f::operator*,
whose implementation file is not part of the given sources. -/
def Quat.mul (p q : Quat) : Quat :=
  ⟨p.w * q.w - p.x * q.x - p.y * q.y - p.z * q.z,
   p.w * q.x + p.x * q.w + p.y * q.z - p.z * q.y,
   p.w * q.y - p.x * q.z + p.y * q.w + p.z * q.x,
   p.w * q.z + p.x * q.y - p.y * q.x + p.z * q.w⟩

/-- Modelled from the spec: the conjugate of Quaternion3f::conj negates the
vector part; the implementation file is not part of the given sources. -/
def Quat.conj (q : Quat) : Quat := ⟨q.w, -q.x, -q.y, -q.z⟩

def Quat.neg (q : Quat) : Quat := ⟨-q.w, -q.x, -q.y, -q.z⟩

/-- Modelled from the spec: Quaternion3f::transform rotates a vector by the
Hamilton sandwich product q * (0, v) * conj q; the implementation file is not
part of the given sources. -/
def Quat.transform (q : Quat) (v : Vec3) : Vec3 :=
  let p := (q.mul ⟨0, v.x, v.y, v.z⟩).mul q.conj
  ⟨p.x, p.y, p.z⟩

/-- Modelled from the spec: the quaternion-to-matrix conversion
Quaternion3f::toRotation, whose implementation file is not part of the given
sources; the standard rotation-matrix form of a unit quaternion. -/
def Quat.toRotation (q : Quat) : Mat3 :=
  ⟨1 - 2 * (q.y * q.y + q.z * q.z), 2 * (q.x * q.y - q.w * q.z),
     2 * (q.x * q.z + q.w * q.y),
   2 * (q.x * q.y + q.w * q.z), 1 - 2 * (q.x * q.x + q.z * q.z),
     2 * (q.y * q.z - q.w * q.x),
   2 * (q.x * q.z - q.w * q.y), 2 * (q.y * q.z + q.w * q.x),
     1 - 2 * (q.x * q.x + q.y * q.y)⟩

/-- Modelled from the spec: the matrix-to-quaternion conversion
Quaternion3f::fromRotation, whose implementation file is not part of the given
sources; numerically stable branch selection on the sign of the matrix trace,
then on the largest diagonal entry. -/
def Quat.fromRotation (R : Mat3) : Quat :=
  if 0 < R.m00 + R.m11 + R.m22 then
    ⟨Real.sqrt (R.m00 + R.m11 + R.m22 + 1) / 2,
     (R.m21 - R.m12) * (1 / (2 * Real.sqrt (R.m00 + R.m11 + R.m22 + 1))),
     (R.m02 - R.m20) * (1 / (2 * Real.sqrt (R.m00 + R.m11 + R.m22 + 1))),
     (R.m10 - R.m01) * (1 / (2 * Real.sqrt (R.m00 + R.m11 + R.m22 + 1)))⟩
  else
    if R.m00 < R.m11 then
      if R.m11 < R.m22 then
        ⟨(R.m10 - R.m01) * (1 / (2 * Real.sqrt (R.m22 - R.m00 - R.m11 + 1))),
         (R.m02 + R.m20) * (1 / (2 * Real.sqrt (R.m22 - R.m00 - R.m11 + 1))),
         (R.m12 + R.m21) * (1 / (2 * Real.sqrt (R.m22 - R.m00 - R.m11 + 1))),
         Real.sqrt (R.m22 - R.m00 - R.m11 + 1) / 2⟩
      else
        ⟨(R.m02 - R.m20) * (1 / (2 * Real.sqrt (R.m11 - R.m22 - R.m00 + 1))),
         (R.m01 + R.m10) * (1 / (2 * Real.sqrt (R.m11 - R.m22 - R.m00 + 1))),
         Real.sqrt (R.m11 - R.m22 - R.m00 + 1) / 2,
         (R.m21 + R.m12) * (1 / (2 * Real.sqrt (R.m11 - R.m22 - R.m00 + 1)))⟩
    else
      if R.m00 < R.m22 then
        ⟨(R.m10 - R.m01) * (1 / (2 * Real.sqrt (R.m22 - R.m00 - R.m11 + 1))),
         (R.m02 + R.m20) * (1 / (2 * Real.sqrt (R.m22 - R.m00 - R.m11 + 1))),
         (R.m12 + R.m21) * (1 / (2 * Real.sqrt (R.m22 - R.m00 - R.m11 + 1))),
         Real.sqrt (R.m22 - R.m00 - R.m11 + 1) / 2⟩
      else
        ⟨(R.m21 - R.m12) * (1 / (2 * Real.sqrt (R.m00 - R.m11 - R.m22 + 1))),
         Real.sqrt (R.m00 - R.m11 - R.m22 + 1) / 2,
         (R.m10 + R.m01) * (1 / (2 * Real.sqrt (R.m00 - R.m11 - R.m22 + 1))),
         (R.m20 + R.m02) * (1 / (2 * Real.sqrt (R.m00 - R.m11 - R.m22 + 1)))⟩

/-- The image of the unit quaternions under toRotation: the rotation matrices
as producible by this component; used to state the orthonormal-rotation caller
contract on matrix inputs of Transform3f. -/
def Mat3.IsRotM (R : Mat3) : Prop := ∃ p : Quat, p.unit ∧ p.toRotation = R

/-- The rigid transform of transform.h: a lazily cached rotation matrix R with
validity flag matrix_set, a translation T and a quaternion q. -/
structure Transform3f where
  matrix_set : Bool
  R : Mat3
  T : Vec3
  q : Quat

/-- Default constructor: setIdentity. -/
def Transform3f.ident : Transform3f := ⟨true, Mat3.one, Vec3.zero, Quat.ident⟩

/-- Constructor from a rotation matrix and a translation. -/
def Transform3f.ofRT (R_ : Mat3) (T_ : Vec3) : Transform3f :=
  ⟨true, R_, T_, Quat.fromRotation R_⟩

/-- Constructor from a quaternion and a translation. The matrix member is left
uninitialized by the C++ constructor; it is modelled as the zero matrix, and
matrix_set is false so it is never read before being overwritten. -/
def Transform3f.ofQT (q_ : Quat) (T_ : Vec3) : Transform3f :=
  ⟨false, Mat3.zero, T_, q_⟩

/-- Constructor from a rotation matrix alone; the translation member is left
default-initialized, modelled as zero. -/
def Transform3f.ofR (R_ : Mat3) : Transform3f :=
  ⟨true, R_, Vec3.zero, Quat.fromRotation R_⟩

/-- Constructor from a quaternion alone. -/
def Transform3f.ofQ (q_ : Quat) : Transform3f := ⟨false, Mat3.zero, Vec3.zero, q_⟩

/-- Constructor from a translation alone: the matrix cache is set to the
identity and the quaternion defaults to the identity rotation. -/
def Transform3f.ofT (T_ : Vec3) : Transform3f := ⟨true, Mat3.one, T_, Quat.ident⟩

/-- getRotation: reading the matrix while the cache flag is false recomputes it
from the quaternion and sets the flag; returns the matrix read together with
the post-state of the (mutable-cache) object. -/
def Transform3f.getRotation (t : Transform3f) : Mat3 × Transform3f :=
  if t.matrix_set then (t.R, t)
  else (t.q.toRotation, ⟨true, t.q.toRotation, t.T, t.q⟩)

/-- setTransform from a matrix and a translation. -/
def Transform3f.setTransformRT (t : Transform3f) (R_ : Mat3)
    (T_ : Vec3) : Transform3f :=
  let _ := t
  ⟨true, R_, T_, Quat.fromRotation R_⟩

/-- setTransform from a quaternion and a translation. -/
def Transform3f.setTransformQT (t : Transform3f) (q_ : Quat) (T_ : Vec3) :
    Transform3f :=
  ⟨false, t.R, T_, q_⟩

/-- setRotation from a matrix: cache becomes valid, quaternion re-derived. -/
def Transform3f.setRotation (t : Transform3f) (R_ : Mat3) :
    Transform3f :=
  ⟨true, R_, t.T, Quat.fromRotation R_⟩

def Transform3f.setTranslation (t : Transform3f) (T_ : Vec3) : Transform3f :=
  ⟨t.matrix_set, t.R, T_, t.q⟩

/-- setQuatRotation: cache becomes stale. -/
def Transform3f.setQuatRotation (t : Transform3f) (q_ : Quat) : Transform3f :=
  ⟨false, t.R, t.T, q_⟩

/-- Application of the rigid transform to a point: rotate then translate. -/
def Transform3f.transform (t : Transform3f) (v : Vec3) : Vec3 :=
  (t.q.transform v).add t.T

/-- The mutating member Transform3f::inverse, modelled as the post-state: the
quaternion is conjugated first, then the translation is replaced by the
conjugated rotation applied to the negated old translation; cache stale. -/
def Transform3f.inverse (t : Transform3f) : Transform3f :=
  let qc := t.q.conj
  ⟨false, t.R, qc.transform t.T.neg, qc⟩

/-- Transform3f::inverseTimes, a const member computed from a conjugated copy
of the quaternion, leaving self untouched. -/
def Transform3f.inverseTimes (t other : Transform3f) : Transform3f :=
  let q_inv := t.q.conj
  Transform3f.ofQT (q_inv.mul other.q) (q_inv.transform (other.T.sub t.T))

/-- In-place composition Transform3f::operator*=: the translation is updated
with the old quaternion, then the quaternion is multiplied; cache stale, the
stale matrix member keeps its old value. -/
def Transform3f.mulAssign (t other : Transform3f) : Transform3f :=
  ⟨false, t.R, (t.q.transform other.T).add t.T, t.q.mul other.q⟩

/-- Non-mutating composition Transform3f::operator*. -/
def Transform3f.mul (t other : Transform3f) : Transform3f :=
  Transform3f.ofQT (t.q.mul other.q) ((t.q.transform other.T).add t.T)

/-- Exact identity test of Transform3f::isIdentity. -/
def Transform3f.isIdentity (t : Transform3f) : Prop :=
  t.q.isIdentity ∧ t.T = Vec3.zero

/-- Transform3f::setIdentity, modelled as the post-state of the call. -/
def Transform3f.setIdentity (t : Transform3f) : Transform3f :=
  let _ := t
  ⟨true, Mat3.one, Vec3.zero, Quat.ident⟩

/-- The transforms reachable through the public constructors and operations of
Transform3f, with the orthonormal-rotation caller contract on matrix inputs. -/
inductive Transform3f.Reachable : Transform3f → Prop
  | ident : Transform3f.Reachable Transform3f.ident
  | ofRT (R_ : Mat3) (T_ : Vec3) (h : R_.IsRotM) :
      Transform3f.Reachable (Transform3f.ofRT R_ T_)
  | ofQT (q_ : Quat) (T_ : Vec3) : Transform3f.Reachable (Transform3f.ofQT q_ T_)
  | ofR (R_ : Mat3) (h : R_.IsRotM) : Transform3f.Reachable (Transform3f.ofR R_)
  | ofQ (q_ : Quat) : Transform3f.Reachable (Transform3f.ofQ q_)
  | ofT (T_ : Vec3) : Transform3f.Reachable (Transform3f.ofT T_)
  | getRot (t : Transform3f) (ht : Transform3f.Reachable t) :
      Transform3f.Reachable t.getRotation.2
  | setTransformRT (t : Transform3f) (R_ : Mat3) (T_ : Vec3)
      (ht : Transform3f.Reachable t) (h : R_.IsRotM) :
      Transform3f.Reachable (t.setTransformRT R_ T_)
  | setTransformQT (t : Transform3f) (q_ : Quat) (T_ : Vec3)
      (ht : Transform3f.Reachable t) :
      Transform3f.Reachable (t.setTransformQT q_ T_)
  | setRotation (t : Transform3f) (R_ : Mat3) (ht : Transform3f.Reachable t)
      (h : R_.IsRotM) : Transform3f.Reachable (t.setRotation R_)
  | setTranslation (t : Transform3f) (T_ : Vec3) (ht : Transform3f.Reachable t) :
      Transform3f.Reachable (t.setTranslation T_)
  | setQuatRotation (t : Transform3f) (q_ : Quat) (ht : Transform3f.Reachable t) :
      Transform3f.Reachable (t.setQuatRotation q_)
  | inv (t : Transform3f) (ht : Transform3f.Reachable t) :
      Transform3f.Reachable t.inverse
  | inverseTimes (t other : Transform3f) (ht : Transform3f.Reachable t)
      (hother : Transform3f.Reachable other) :
      Transform3f.Reachable (t.inverseTimes other)
  | mulAssign (t other : Transform3f) (ht : Transform3f.Reachable t)
      (hother : Transform3f.Reachable other) :
      Transform3f.Reachable (t.mulAssign other)
  | mul (t other : Transform3f) (ht : Transform3f.Reachable t)
      (hother : Transform3f.Reachable other) :
      Transform3f.Reachable (t.mul other)
  | setIdentity (t : Transform3f) (ht : Transform3f.Reachable t) :
      Transform3f.Reachable t.setIdentity

/-- The cache invariant of the spec: whenever the matrix-valid flag is on, the
cached matrix is the conversion of the quaternion. -/
def Transform3f.CacheInv (t : Transform3f) : Prop :=
  t.matrix_set = true → t.R = t.q.toRotation

/-- fcl::normalize of geometry.h: divide by the norm and signal true when the
squared norm is positive, otherwise leave the vector alone and signal false. -/
def fcl.normalize (v : Vec3) : Vec3 × Bool :=
  let sqr_length := v.squaredNorm
  if 0 < sqr_length then (v.divScalar (Real.sqrt sqr_length), true)
  else (v, false)

/-- fcl::generateCoordinateSystem of geometry.h, vector variant: complete a
unit vector w to a right-handed orthonormal frame, branching on
abs w.x >= abs w.y to keep the denominator away from zero. -/
def fcl.generateCoordinateSystem (w : Vec3) : Vec3 × Vec3 :=
  if |w.y| ≤ |w.x| then
    let inv_length := 1 / Real.sqrt (w.x * w.x + w.z * w.z)
    let u : Vec3 := ⟨-w.z * inv_length, 0, w.x * inv_length⟩
    (u, ⟨w.y * u.z, w.z * u.x - w.x * u.z, -w.y * u.x⟩)
  else
    let inv_length := 1 / Real.sqrt (w.y * w.y + w.z * w.z)
    let u : Vec3 := ⟨0, w.z * inv_length, -w.y * inv_length⟩
    (u, ⟨w.y * u.z - w.z * u.y, -w.x * u.z, w.x * u.y⟩)

/-- fcl::generateCoordinateSystem of geometry.h, in-place Matrix3 variant:
fills columns 1 and 2 from column 0, branching on
abs axis(0,0) >= abs axis(1,0). -/
def fcl.generateCoordinateSystemMat (axis : Mat3) : Mat3 :=
  if |axis.m10| ≤ |axis.m00| then
    let inv_length := 1 / Real.sqrt (axis.m00 ^ 2 + axis.m20 ^ 2)
    let a01 := -axis.m20 * inv_length
    let a11 : ℝ := 0
    let a21 := axis.m00 * inv_length
    ⟨axis.m00, a01, axis.m10 * a21,
     axis.m10, a11, axis.m20 * a01 - axis.m00 * a21,
     axis.m20, a21, -axis.m10 * a01⟩
  else
    let inv_length := 1 / Real.sqrt (axis.m10 ^ 2 + axis.m20 ^ 2)
    let a01 : ℝ := 0
    let a11 := axis.m20 * inv_length
    let a21 := -axis.m10 * inv_length
    ⟨axis.m00, a01, axis.m10 * a21 - axis.m20 * a11,
     axis.m10, a11, -axis.m00 * a21,
     axis.m20, a21, axis.m00 * a11⟩

/-- The assertion written in the Matrix3 variant of generateCoordinateSystem:
assert(axis.col(0).maxCoeff() == 2), that is, the largest coefficient VALUE of
the first column equals 2. -/
def fcl.gcsMatAssertCond (axis : Mat3) : Prop :=
  max (max axis.m00 axis.m10) axis.m20 = 2

/-- The documented precondition of the Matrix3 variant: the z-component of the
first column has the largest magnitude. -/
def fcl.gcsMatPrecond (axis : Mat3) : Prop :=
  |axis.m00| ≤ |axis.m20| ∧ |axis.m10| ≤ |axis.m20|

/-- Result of fcl::eigen: the two output references and whether a diagnostic
message was written to the error stream. -/
structure fcl.EigenResult where
  dout : Vec3
  vout : Mat3
  diagnostic : Bool

/-- fcl::eigen of geometry.h. The call into the external library solver
Eigen::SelfAdjointEigenSolver is modelled as an oracle argument returning
either the eigenvalue vector and eigenvector matrix, or failure; on failure
the function writes a diagnostic and returns with both outputs untouched. -/
def fcl.eigen (solver : Mat3 → Option (Vec3 × Mat3)) (m : Mat3) (dout : Vec3)
    (vout : Mat3) : fcl.EigenResult :=
  match solver m with
  | none => ⟨dout, vout, true⟩
  | some (d, v) => ⟨d, v, false⟩

/-- fcl::relativeTransform of geometry.h, matrix overload:
R = transpose R1 * R2 and t = transpose R1 * (t2 - t1). -/
def fcl.relativeTransform (R1 : Mat3) (t1 : Vec3) (R2 : Mat3) (t2 : Vec3) :
    Mat3 × Vec3 :=
  (R1.transpose.mul R2, R1.transpose.mulVec (t2.sub t1))

/-- Composition of rigid transforms in rotation-matrix form, for stating the
relative-transform contract: apply the right transform first. -/
def fcl.composeRT (a b : Mat3 × Vec3) : Mat3 × Vec3 :=
  (a.1.mul b.1, (a.1.mulVec b.2).add a.2)

/-- Application of a rotation-matrix rigid transform to a point. -/
def fcl.applyRT (a : Mat3 × Vec3) (v : Vec3) : Vec3 := (a.1.mulVec v).add a.2

/-
Helper lemmas about the quaternion algebra and the 3 by 3 matrix algebra.
-/

lemma Quat.transform_comp (p q : Quat) (v : Vec3) :
    (p.mul q).transform v = p.transform (q.transform v) := by
  ext <;> simp only [Quat.transform, Quat.mul, Quat.conj] <;> ring

lemma Quat.transform_ident (v : Vec3) : Quat.ident.transform v = v := by
  ext <;> simp only [Quat.transform, Quat.mul, Quat.conj, Quat.ident] <;> ring

lemma Quat.mul_conj_self (q : Quat) (h : q.unit) : q.mul q.conj = Quat.ident := by
  simp only [Quat.unit] at h
  refine Quat.ext ?_ ?_ ?_ ?_ <;>
    simp only [Quat.mul, Quat.conj, Quat.ident]
  · linear_combination h
  · ring
  · ring
  · ring

lemma Quat.conj_mul_self (q : Quat) (h : q.unit) : q.conj.mul q = Quat.ident := by
  simp only [Quat.unit] at h
  refine Quat.ext ?_ ?_ ?_ ?_ <;>
    simp only [Quat.mul, Quat.conj, Quat.ident]
  · linear_combination h
  · ring
  · ring
  · ring

lemma Quat.ident_isIdentity : Quat.ident.isIdentity := by
  simp [Quat.ident, Quat.isIdentity]

lemma Vec3.neg_add_self (a : Vec3) : a.neg.add a = Vec3.zero := by
  ext <;> simp [Vec3.neg, Vec3.add, Vec3.zero]

lemma Mat3.mul_assoc (a b c : Mat3) : (a.mul b).mul c = a.mul (b.mul c) := by
  ext <;> simp only [Mat3.mul] <;> ring

lemma Mat3.one_mul (a : Mat3) : Mat3.one.mul a = a := by
  ext <;> simp only [Mat3.mul, Mat3.one] <;> ring

lemma Mat3.mulVec_mulVec (a b : Mat3) (v : Vec3) :
    (a.mul b).mulVec v = a.mulVec (b.mulVec v) := by
  ext <;> simp only [Mat3.mul, Mat3.mulVec] <;> ring

lemma Mat3.one_mulVec (v : Vec3) : Mat3.one.mulVec v = v := by
  ext <;> simp only [Mat3.mulVec, Mat3.one] <;> ring

/-
Claim theorems.
-/

/-- C1: for rigid transforms T1, T2 with unit quaternions and every vector v,
(T1 * T2).transform v = T1.transform (T2.transform v). -/
theorem compose_then_apply (T1 T2 : Transform3f) (h1 : T1.q.unit)
    (h2 : T2.q.unit) (v : Vec3) :
    (T1.mul T2).transform v = T1.transform (T2.transform v) := by
  ext <;>
    simp only [Transform3f.mul, Transform3f.transform, Transform3f.ofQT,
      Quat.transform, Quat.mul, Quat.conj, Vec3.add] <;> ring

theorem compose_then_apply_witness :
    Transform3f.ident.q.unit ∧
      (Transform3f.ident.mul Transform3f.ident).transform ⟨1, 2, 3⟩ =
        Transform3f.ident.transform (Transform3f.ident.transform ⟨1, 2, 3⟩) :=
  ⟨by norm_num [Transform3f.ident, Quat.ident, Quat.unit],
   compose_then_apply Transform3f.ident Transform3f.ident
     (by norm_num [Transform3f.ident, Quat.ident, Quat.unit])
     (by norm_num [Transform3f.ident, Quat.ident, Quat.unit]) ⟨1, 2, 3⟩⟩

/-- C2: for a rigid transform T with unit quaternion, composing with its
inverse in either order yields the identity transform exactly, where the
inverse conjugates the quaternion and maps the translation to the conjugated
rotation applied to the negated old translation. -/
theorem inverse_compose_isIdentity (T : Transform3f) (h : T.q.unit) :
    (T.mul T.inverse).isIdentity ∧ (T.inverse.mul T).isIdentity := by
  constructor
  · refine ⟨?_, ?_⟩
    · show (T.q.mul T.q.conj).isIdentity
      rw [Quat.mul_conj_self T.q h]
      exact Quat.ident_isIdentity
    · show (T.q.transform (T.q.conj.transform T.T.neg)).add T.T = Vec3.zero
      rw [← Quat.transform_comp, Quat.mul_conj_self T.q h, Quat.transform_ident,
        Vec3.neg_add_self]
  · refine ⟨?_, ?_⟩
    · show (T.q.conj.mul T.q).isIdentity
      rw [Quat.conj_mul_self T.q h]
      exact Quat.ident_isIdentity
    · show (T.q.conj.transform T.T).add ((T.q.conj.transform T.T.neg)) = Vec3.zero
      ext <;> simp only [Quat.transform, Quat.mul, Quat.conj, Vec3.add,
        Vec3.neg, Vec3.zero] <;> ring

theorem inverse_compose_isIdentity_witness :
    (Transform3f.ofQT ⟨0, 1, 0, 0⟩ ⟨5, 6, 7⟩).q.unit ∧
      ((Transform3f.ofQT ⟨0, 1, 0, 0⟩ ⟨5, 6, 7⟩).mul
        (Transform3f.ofQT ⟨0, 1, 0, 0⟩ ⟨5, 6, 7⟩).inverse).isIdentity :=
  ⟨by norm_num [Transform3f.ofQT, Quat.unit],
   (inverse_compose_isIdentity _ (by norm_num [Transform3f.ofQT, Quat.unit])).1⟩

/-- The const method call semantics of inverseTimes: the post-state of the
receiver paired with the returned value. -/
def Transform3f.inverseTimesCall (t other : Transform3f) :
    Transform3f × Transform3f :=
  (t, t.inverseTimes other)

/-- C3: inverseTimes leaves the receiver unchanged, and applying its result
equals applying inverse(T1) after T2, for unit quaternions. -/
theorem inverseTimes_pure_and_correct (T1 T2 : Transform3f) (h1 : T1.q.unit)
    (h2 : T2.q.unit) :
    (T1.inverseTimesCall T2).1 = T1 ∧
      ∀ v : Vec3, (T1.inverseTimes T2).transform v =
        T1.inverse.transform (T2.transform v) := by
  refine ⟨rfl, fun v => ?_⟩
  ext <;>
    simp only [Transform3f.inverseTimes, Transform3f.inverse,
      Transform3f.transform, Transform3f.ofQT, Quat.transform, Quat.mul,
      Quat.conj, Vec3.add, Vec3.sub, Vec3.neg] <;> ring

theorem inverseTimes_pure_and_correct_witness :
    (Transform3f.ident.inverseTimesCall Transform3f.ident).1 =
      Transform3f.ident :=
  (inverseTimes_pure_and_correct Transform3f.ident Transform3f.ident
    (by norm_num [Transform3f.ident, Quat.ident, Quat.unit])
    (by norm_num [Transform3f.ident, Quat.ident, Quat.unit])).1

/-- C10: the in-place composition and the non-mutating product agree on the
resulting quaternion and translation, from the same initial states. -/
theorem mulAssign_agrees_with_mul (T1 T2 : Transform3f) :
    (T1.mulAssign T2).q = (T1.mul T2).q ∧ (T1.mulAssign T2).T = (T1.mul T2).T :=
  ⟨rfl, rfl⟩

/-- C5: normalize divides by the norm and signals true exactly when the
squared norm is positive, otherwise leaves the vector unchanged and signals
false; with the two concrete cases of the spec. -/
theorem normalize_spec :
    (∀ v : Vec3, 0 < v.squaredNorm →
        fcl.normalize v = (v.divScalar (Real.sqrt v.squaredNorm), true)) ∧
      (∀ v : Vec3, v.squaredNorm ≤ 0 → fcl.normalize v = (v, false)) ∧
      fcl.normalize ⟨0, 0, 0⟩ = (⟨0, 0, 0⟩, false) ∧
      fcl.normalize ⟨3, 4, 0⟩ = (⟨3 / 5, 4 / 5, 0⟩, true) := by
  have h5 : Real.sqrt 25 = 5 := by
    rw [show (25 : ℝ) = 5 ^ 2 by norm_num, Real.sqrt_sq (by norm_num : (0:ℝ) ≤ 5)]
  refine ⟨fun v hv => ?_, fun v hv => ?_, ?_, ?_⟩
  · simp only [fcl.normalize, if_pos hv]
  · simp only [fcl.normalize, if_neg (not_lt.mpr hv)]
  · norm_num [fcl.normalize, Vec3.squaredNorm]
  · have hsq : Vec3.squaredNorm ⟨3, 4, 0⟩ = 25 := by
      norm_num [Vec3.squaredNorm]
    simp only [fcl.normalize, hsq, h5]
    norm_num [Vec3.divScalar]

theorem normalize_spec_witness :
    fcl.normalize ⟨0, 0, 2⟩ =
      (Vec3.divScalar ⟨0, 0, 2⟩ (Real.sqrt (Vec3.squaredNorm ⟨0, 0, 2⟩)), true) :=
  normalize_spec.1 ⟨0, 0, 2⟩ (by norm_num [Vec3.squaredNorm])

/-- C7: relativeTransform returns transpose R1 * R2 and
transpose R1 * (t2 - t1); when R1 and R2 are rotations, composing (R1, t1)
with the result recovers (R2, t2). -/
theorem relativeTransform_spec (R1 R2 : Mat3) (t1 t2 : Vec3) :
    fcl.relativeTransform R1 t1 R2 t2 =
        (R1.transpose.mul R2, R1.transpose.mulVec (t2.sub t1)) ∧
      (R1.IsRotation → R2.IsRotation →
        fcl.composeRT (R1, t1) (fcl.relativeTransform R1 t1 R2 t2) = (R2, t2)) := by
  refine ⟨rfl, fun hR1 _ => ?_⟩
  have horth : R1.mul R1.transpose = Mat3.one := hR1.1
  simp only [fcl.relativeTransform, fcl.composeRT, Prod.mk.injEq]
  constructor
  · rw [← Mat3.mul_assoc, horth, Mat3.one_mul]
  · rw [← Mat3.mulVec_mulVec, horth, Mat3.one_mulVec]
    ext <;> simp only [Vec3.add, Vec3.sub] <;> ring

theorem relativeTransform_spec_witness :
    fcl.composeRT (Mat3.one, Vec3.zero)
      (fcl.relativeTransform Mat3.one Vec3.zero Mat3.one Vec3.zero) =
        (Mat3.one, Vec3.zero) := by
  have hrot : Mat3.IsRotation Mat3.one := by
    refine ⟨?_, ?_, ?_⟩ <;>
      simp [Mat3.mul, Mat3.one, Mat3.transpose, Mat3.det]
  exact (relativeTransform_spec Mat3.one Mat3.one Vec3.zero Vec3.zero).2 hrot hrot

/-- C8: when the eigendecomposition solver fails, eigen writes a diagnostic
and leaves both outputs exactly as they were; when the solver succeeds, the
outputs receive the computed eigenvalues and eigenvectors. -/
theorem eigen_failure_leaves_outputs (solver : Mat3 → Option (Vec3 × Mat3))
    (m : Mat3) (d0 : Vec3) (v0 : Mat3) :
    (solver m = none → fcl.eigen solver m d0 v0 = ⟨d0, v0, true⟩) ∧
      ∀ d v, solver m = some (d, v) → fcl.eigen solver m d0 v0 = ⟨d, v, false⟩ := by
  constructor
  · intro h
    simp [fcl.eigen, h]
  · intro d v h
    simp [fcl.eigen, h]

theorem eigen_failure_leaves_outputs_witness :
    fcl.eigen (fun _ => none) Mat3.zero Vec3.zero Mat3.one =
      ⟨Vec3.zero, Mat3.one, true⟩ :=
  (eigen_failure_leaves_outputs (fun _ => none) Mat3.zero Vec3.zero Mat3.one).1
    rfl

/-- C9: a concrete matrix whose first column is (0, 0, 1) satisfies the
documented precondition (z-component of the first column largest in
magnitude), yet the assertion written in the Matrix3 variant of
generateCoordinateSystem is false on it: the largest coefficient of the first
column is 1, not 2. -/
theorem gcsMat_assert_fails_under_precondition :
    fcl.gcsMatPrecond ⟨0, 0, 0, 0, 0, 0, 1, 0, 0⟩ ∧
      ¬ fcl.gcsMatAssertCond ⟨0, 0, 0, 0, 0, 0, 1, 0, 0⟩ := by
  constructor
  · norm_num [fcl.gcsMatPrecond]
  · norm_num [fcl.gcsMatAssertCond]

/-- C6: for a unit vector w, the vector variant of generateCoordinateSystem
produces u, v with unit norms, pairwise orthogonal to each other and to w, and
with cross product u x v = w (a right-handed orthonormal frame). -/
theorem generateCoordinateSystem_orthonormal (w : Vec3)
    (h : w.squaredNorm = 1) :
    Real.sqrt (fcl.generateCoordinateSystem w).1.squaredNorm = 1 ∧
      Real.sqrt (fcl.generateCoordinateSystem w).2.squaredNorm = 1 ∧
      (fcl.generateCoordinateSystem w).1.dot w = 0 ∧
      (fcl.generateCoordinateSystem w).2.dot w = 0 ∧
      (fcl.generateCoordinateSystem w).1.dot (fcl.generateCoordinateSystem w).2 = 0 ∧
      (fcl.generateCoordinateSystem w).1.cross (fcl.generateCoordinateSystem w).2 = w := by
  simp only [Vec3.squaredNorm] at h
  have hmain : (fcl.generateCoordinateSystem w).1.squaredNorm = 1 ∧
      (fcl.generateCoordinateSystem w).2.squaredNorm = 1 ∧
      (fcl.generateCoordinateSystem w).1.dot w = 0 ∧
      (fcl.generateCoordinateSystem w).2.dot w = 0 ∧
      (fcl.generateCoordinateSystem w).1.dot (fcl.generateCoordinateSystem w).2 = 0 ∧
      (fcl.generateCoordinateSystem w).1.cross (fcl.generateCoordinateSystem w).2 = w := by
    by_cases hb : |w.y| ≤ |w.x|
    · have hs : 0 < w.x * w.x + w.z * w.z := by
        rcases lt_or_le 0 (w.x * w.x + w.z * w.z) with h1 | h1
        · exact h1
        · exfalso
          have hx2 : w.x * w.x = 0 :=
            le_antisymm (by nlinarith [mul_self_nonneg w.z]) (mul_self_nonneg w.x)
          have hz2 : w.z * w.z = 0 :=
            le_antisymm (by nlinarith [mul_self_nonneg w.x]) (mul_self_nonneg w.z)
          have hx : w.x = 0 := mul_self_eq_zero.mp hx2
          have hz : w.z = 0 := mul_self_eq_zero.mp hz2
          have hy : w.y = 0 := by
            have hb2 := hb
            rw [hx] at hb2
            simpa [abs_nonpos_iff] using hb2
          rw [hx, hy, hz] at h
          norm_num at h
      have hr2 : Real.sqrt (w.x * w.x + w.z * w.z) ^ 2 = w.x * w.x + w.z * w.z :=
        Real.sq_sqrt hs.le
      have hL : (1 / Real.sqrt (w.x * w.x + w.z * w.z)) ^ 2 *
          (w.x * w.x + w.z * w.z) = 1 := by
        rw [one_div, inv_pow, hr2, inv_mul_cancel₀ (ne_of_gt hs)]
      simp only [fcl.generateCoordinateSystem, if_pos hb]
      refine ⟨?_, ?_, ?_, ?_, ?_, ?_⟩
      · simp only [Vec3.squaredNorm]
        linear_combination hL
      · simp only [Vec3.squaredNorm]
        linear_combination (w.x * w.x + w.y * w.y + w.z * w.z) * hL + h
      · simp only [Vec3.dot]
        ring
      · simp only [Vec3.dot]
        ring
      · simp only [Vec3.dot]
        ring
      · refine Vec3.ext ?_ ?_ ?_ <;> simp only [Vec3.cross]
        · linear_combination w.x * hL
        · linear_combination w.y * hL
        · linear_combination w.z * hL
    · have hb2 : |w.x| < |w.y| := not_le.mp hb
      have hxy : w.x * w.x < w.y * w.y := by
        have h3 := mul_self_lt_mul_self (abs_nonneg w.x) hb2
        rwa [abs_mul_abs_self w.x, abs_mul_abs_self w.y] at h3
      have hs : 0 < w.y * w.y + w.z * w.z := by
        nlinarith [mul_self_nonneg w.x, mul_self_nonneg w.z]
      have hr2 : Real.sqrt (w.y * w.y + w.z * w.z) ^ 2 = w.y * w.y + w.z * w.z :=
        Real.sq_sqrt hs.le
      have hL : (1 / Real.sqrt (w.y * w.y + w.z * w.z)) ^ 2 *
          (w.y * w.y + w.z * w.z) = 1 := by
        rw [one_div, inv_pow, hr2, inv_mul_cancel₀ (ne_of_gt hs)]
      simp only [fcl.generateCoordinateSystem, if_neg hb]
      refine ⟨?_, ?_, ?_, ?_, ?_, ?_⟩
      · simp only [Vec3.squaredNorm]
        linear_combination hL
      · simp only [Vec3.squaredNorm]
        linear_combination (w.x * w.x + w.y * w.y + w.z * w.z) * hL + h
      · simp only [Vec3.dot]
        ring
      · simp only [Vec3.dot]
        ring
      · simp only [Vec3.dot]
        ring
      · refine Vec3.ext ?_ ?_ ?_ <;> simp only [Vec3.cross]
        · linear_combination w.x * hL
        · linear_combination w.y * hL
        · linear_combination w.z * hL
  obtain ⟨h1, h2, h3, h4, h5, h6⟩ := hmain
  exact ⟨by rw [h1, Real.sqrt_one], by rw [h2, Real.sqrt_one], h3, h4, h5, h6⟩

theorem generateCoordinateSystem_orthonormal_witness :
    (fcl.generateCoordinateSystem ⟨1, 0, 0⟩).1.cross
      (fcl.generateCoordinateSystem ⟨1, 0, 0⟩).2 = ⟨1, 0, 0⟩ :=
  (generateCoordinateSystem_orthonormal ⟨1, 0, 0⟩
    (by norm_num [Vec3.squaredNorm])).2.2.2.2.2

lemma Quat.toRotation_neg (q : Quat) : q.neg.toRotation = q.toRotation := by
  ext <;> simp only [Quat.toRotation, Quat.neg] <;> ring

lemma Quat.toRotation_ident : Quat.ident.toRotation = Mat3.one := by
  ext <;> norm_num [Quat.toRotation, Quat.ident, Mat3.one]

/-- The stable matrix-to-quaternion conversion recovers the quaternion of a
rotation matrix up to the double-cover sign. -/
lemma Quat.fromRotation_toRotation (p : Quat) (hp : p.unit) :
    Quat.fromRotation p.toRotation = p ∨ Quat.fromRotation p.toRotation = p.neg := by
  obtain ⟨a, b, c, d⟩ := p
  simp only [Quat.unit] at hp
  have hp2 : a * a + b * b + c * c + d * d = 1 := by linear_combination hp
  simp only [Quat.toRotation, Quat.fromRotation, Quat.neg]
  split_ifs with hA hC hD hG
  · -- trace positive: pivot a
    have harg : 1 - 2 * (c * c + d * d) + (1 - 2 * (b * b + d * d)) +
        (1 - 2 * (b * b + c * c)) + 1 = (2 * a) ^ 2 := by
      linear_combination (-4 : ℝ) * hp
    rw [harg, Real.sqrt_sq_eq_abs]
    have hane : a ≠ 0 := by
      intro ha
      rw [ha] at harg
      norm_num at harg
      linarith
    rcases lt_or_gt_of_ne hane with haneg | hapos
    · right
      have h2a : 2 * a < 0 := by linarith
      rw [abs_of_neg h2a]
      refine Quat.ext ?_ ?_ ?_ ?_ <;> field_simp [hane] <;> ring
    · left
      have h2a : 0 < 2 * a := by linarith
      rw [abs_of_pos h2a]
      refine Quat.ext ?_ ?_ ?_ ?_ <;> field_simp [hane] <;> ring
  · -- m00 < m11 and m11 < m22: pivot d
    have hd2 : 1 / 4 ≤ d * d := by
      have h0l := not_lt.mp hA
      linarith
    have hdne : d ≠ 0 := by
      intro hd0
      rw [hd0] at hd2
      norm_num at hd2
    have harg : 1 - 2 * (b * b + c * c) - (1 - 2 * (c * c + d * d)) -
        (1 - 2 * (b * b + d * d)) + 1 = (2 * d) ^ 2 := by ring
    rw [harg, Real.sqrt_sq_eq_abs]
    rcases lt_or_gt_of_ne hdne with hneg | hpos
    · right
      have h2d : 2 * d < 0 := by linarith
      rw [abs_of_neg h2d]
      refine Quat.ext ?_ ?_ ?_ ?_ <;> field_simp [hdne] <;> ring
    · left
      have h2d : 0 < 2 * d := by linarith
      rw [abs_of_pos h2d]
      refine Quat.ext ?_ ?_ ?_ ?_ <;> field_simp [hdne] <;> ring
  · -- m00 < m11, not m11 < m22: pivot c
    have hc2 : 1 / 4 ≤ c * c := by
      have h0l := not_lt.mp hA
      have h2l := not_lt.mp hD
      linarith
    have hcne : c ≠ 0 := by
      intro hc0
      rw [hc0] at hc2
      norm_num at hc2
    have harg : 1 - 2 * (b * b + d * d) - (1 - 2 * (b * b + c * c)) -
        (1 - 2 * (c * c + d * d)) + 1 = (2 * c) ^ 2 := by ring
    rw [harg, Real.sqrt_sq_eq_abs]
    rcases lt_or_gt_of_ne hcne with hneg | hpos
    · right
      have h2c : 2 * c < 0 := by linarith
      rw [abs_of_neg h2c]
      refine Quat.ext ?_ ?_ ?_ ?_ <;> field_simp [hcne] <;> ring
    · left
      have h2c : 0 < 2 * c := by linarith
      rw [abs_of_pos h2c]
      refine Quat.ext ?_ ?_ ?_ ?_ <;> field_simp [hcne] <;> ring
  · -- not m00 < m11, m00 < m22: pivot d
    have hd2 : 1 / 4 ≤ d * d := by
      have h0l := not_lt.mp hA
      have h1l := not_lt.mp hC
      linarith
    have hdne : d ≠ 0 := by
      intro hd0
      rw [hd0] at hd2
      norm_num at hd2
    have harg : 1 - 2 * (b * b + c * c) - (1 - 2 * (c * c + d * d)) -
        (1 - 2 * (b * b + d * d)) + 1 = (2 * d) ^ 2 := by ring
    rw [harg, Real.sqrt_sq_eq_abs]
    rcases lt_or_gt_of_ne hdne with hneg | hpos
    · right
      have h2d : 2 * d < 0 := by linarith
      rw [abs_of_neg h2d]
      refine Quat.ext ?_ ?_ ?_ ?_ <;> field_simp [hdne] <;> ring
    · left
      have h2d : 0 < 2 * d := by linarith
      rw [abs_of_pos h2d]
      refine Quat.ext ?_ ?_ ?_ ?_ <;> field_simp [hdne] <;> ring
  · -- neither diagonal beats m00: pivot b
    have hb2 : 1 / 4 ≤ b * b := by
      have h0l := not_lt.mp hA
      have h1l := not_lt.mp hC
      have h3l := not_lt.mp hG
      linarith
    have hbne : b ≠ 0 := by
      intro hb0
      rw [hb0] at hb2
      norm_num at hb2
    have harg : 1 - 2 * (c * c + d * d) - (1 - 2 * (b * b + d * d)) -
        (1 - 2 * (b * b + c * c)) + 1 = (2 * b) ^ 2 := by ring
    rw [harg, Real.sqrt_sq_eq_abs]
    rcases lt_or_gt_of_ne hbne with hneg | hpos
    · right
      have h2b : 2 * b < 0 := by linarith
      rw [abs_of_neg h2b]
      refine Quat.ext ?_ ?_ ?_ ?_ <;> field_simp [hbne] <;> ring
    · left
      have h2b : 0 < 2 * b := by linarith
      rw [abs_of_pos h2b]
      refine Quat.ext ?_ ?_ ?_ ?_ <;> field_simp [hbne] <;> ring

/-- Round trip: converting a rotation matrix to a quaternion and back yields
the same matrix. -/
lemma Quat.toRotation_fromRotation (p : Quat) (hp : p.unit) :
    (Quat.fromRotation p.toRotation).toRotation = p.toRotation := by
  rcases Quat.fromRotation_toRotation p hp with h | h
  · rw [h]
  · rw [h, Quat.toRotation_neg]

lemma Mat3.IsRotM.roundTrip {R : Mat3} (h : R.IsRotM) :
    (Quat.fromRotation R).toRotation = R := by
  obtain ⟨p, hp, rfl⟩ := h
  exact Quat.toRotation_fromRotation p hp

/-- C4: every Transform3f reachable through the constructors, setters,
composition, inversion, setIdentity and getters (with the orthonormal-rotation
caller contract on matrix inputs) satisfies the cache invariant: when
matrix_set is true the cached matrix equals the conversion of the quaternion;
and reading the rotation while the flag is false recomputes the matrix from
the quaternion and sets the flag. -/
theorem rotation_cache_invariant (s : Transform3f) (hs : s.Reachable) :
    s.CacheInv ∧
      (s.matrix_set = false →
        s.getRotation = (s.q.toRotation, ⟨true, s.q.toRotation, s.T, s.q⟩)) := by
  constructor
  · induction hs with
    | ident =>
        intro _
        exact Quat.toRotation_ident.symm
    | ofRT R_ T_ h =>
        intro _
        exact h.roundTrip.symm
    | ofQT q_ T_ =>
        intro hms
        simp [Transform3f.ofQT] at hms
    | ofR R_ h =>
        intro _
        exact h.roundTrip.symm
    | ofQ q_ =>
        intro hms
        simp [Transform3f.ofQ] at hms
    | ofT T_ =>
        intro _
        exact Quat.toRotation_ident.symm
    | getRot t ht ih =>
        by_cases hm : t.matrix_set
        · simp only [Transform3f.getRotation, if_pos hm]
          exact ih
        · simp only [Transform3f.getRotation, if_neg hm]
          intro _
          rfl
    | setTransformRT t R_ T_ ht h ih =>
        intro _
        exact h.roundTrip.symm
    | setTransformQT t q_ T_ ht ih =>
        intro hms
        simp [Transform3f.setTransformQT] at hms
    | setRotation t R_ ht h ih =>
        intro _
        exact h.roundTrip.symm
    | setTranslation t T_ ht ih =>
        intro hms
        exact ih hms
    | setQuatRotation t q_ ht ih =>
        intro hms
        simp [Transform3f.setQuatRotation] at hms
    | inv t ht ih =>
        intro hms
        simp [Transform3f.inverse] at hms
    | inverseTimes t other ht hother ih1 ih2 =>
        intro hms
        simp [Transform3f.inverseTimes, Transform3f.ofQT] at hms
    | mulAssign t other ht hother ih1 ih2 =>
        intro hms
        simp [Transform3f.mulAssign] at hms
    | mul t other ht hother ih1 ih2 =>
        intro hms
        simp [Transform3f.mul, Transform3f.ofQT] at hms
    | setIdentity t ht ih =>
        intro _
        exact Quat.toRotation_ident.symm
  · intro hf
    simp only [Transform3f.getRotation, hf]
    simp

theorem rotation_cache_invariant_witness :
    (Transform3f.ofQ Quat.ident).getRotation =
      ((Transform3f.ofQ Quat.ident).q.toRotation,
        ⟨true, (Transform3f.ofQ Quat.ident).q.toRotation,
          (Transform3f.ofQ Quat.ident).T, (Transform3f.ofQ Quat.ident).q⟩) :=
  (rotation_cache_invariant _ (Transform3f.Reachable.ofQ Quat.ident)).2 rfl
